import Mathlib

/-!
Verification development for the go-info-share repository: a concurrent
in-memory key/value store (`KVStore` in `main.go`) whose `Set` path
broadcasts a JSON notification over every registered websocket
connection, plus the HTTP handlers `setHandler` and `getHandler`.

The Go map `data : map[string]string` is embedded as an association list
with unique keys; a websocket connection pointer (`*websocket.Conn`,
identified by reference) is embedded as a `Nat` identity; the outcome of
`conn.WriteMessage` is supplied by an environment `fails : Nat → Bool`
(whether the write to that connection errors).  Mutation is explicit
state passing.  The lock discipline of `Set`/`broadcast` is embedded as
a trace of lock/unlock/write events in program order.
-/

namespace InfoShare

/-! ## The Go map: association list with Go `m[k] = v` / `m[k]` semantics -/

/-- Embedding of the Go map assignment `k.data[key] = value`: replace the
binding for `key` if present, otherwise append a fresh binding. -/
def KVset : List (String × String) → String → String → List (String × String)
  | [], key, value => [(key, value)]
  | p :: rest, key, value =>
      if p.1 = key then (key, value) :: rest
      else p :: KVset rest key value

/-- Embedding of the Go map lookup `v, ok := k.data[key]`: `some v` when the
key is bound, `none` when absent (Go's `ok = false`). -/
def KVget (m : List (String × String)) (key : String) : Option String :=
  (m.find? (fun p => p.1 = key)).map (fun p => p.2)

/-- Embedding of the copy loop in `KVStore.GetAll`:
`copy := make(map[string]string); for k, v := range data copy[k] = v`. -/
def GetAllCopy (m : List (String × String)) : List (String × String) :=
  m.foldl (fun acc p => KVset acc p.1 p.2) []

/-! ## `encoding/json` marshaling of `map[string]string` -/

/-- One character of Go `encoding/json` string escaping: quotes, backslash,
HTML-sensitive characters and control characters are escaped, everything
else is passed through. -/
def escChar (c : Char) : String :=
  if c = '"' then "\\\""
  else if c = '\\' then "\\\\"
  else if c = '<' then "\\u003c"
  else if c = '>' then "\\u003e"
  else if c = '&' then "\\u0026"
  else if c = '\n' then "\\n"
  else if c = '\r' then "\\r"
  else if c = '\t' then "\\t"
  else if c.toNat < 32 then
    "\\u00" ++ String.singleton ("0123456789abcdef".toList.getD (c.toNat / 16) '0')
      ++ String.singleton ("0123456789abcdef".toList.getD (c.toNat % 16) '0')
  else String.singleton c

/-- A JSON string literal: the escaped characters wrapped in quotes. -/
def jsonString (s : String) : String :=
  "\"" ++ String.join (s.toList.map escChar) ++ "\""

/-- Lexicographic order on character lists by code point; on strings this
coincides with the byte order `sort.Strings` and `json.Marshal` use, since
UTF-8 preserves code-point order. -/
def charListLe : List Char → List Char → Bool
  | [], _ => true
  | _ :: _, [] => false
  | a :: as, b :: bs =>
      if a.toNat < b.toNat then true
      else if b.toNat < a.toNat then false
      else charListLe as bs

/-- String comparison used when marshaling map keys. -/
def strLe (a b : String) : Bool :=
  charListLe a.toList b.toList

/-- Insert one pair into a key-sorted list of pairs (Go's `json.Marshal`
emits map entries in sorted key order). -/
def insertPair (p : String × String) : List (String × String) → List (String × String)
  | [] => [p]
  | q :: rest => if strLe p.1 q.1 then p :: q :: rest else q :: insertPair p rest

/-- Sort pairs by key, as `encoding/json` does for a Go map. -/
def sortPairs : List (String × String) → List (String × String)
  | [] => []
  | p :: rest => insertPair p (sortPairs rest)

/-- Embedding of `json.Marshal` on a `map[string]string` value: entries in
sorted key order, each `"key":"value"`, comma separated, wrapped in braces. -/
def jsonMarshal (m : List (String × String)) : String :=
  "\x7b" ++ String.intercalate ","
      ((sortPairs m).map (fun p => jsonString p.1 ++ ":" ++ jsonString p.2))
    ++ "\x7d"

/-! ## The broadcast loop and the store -/

/-- One `conn.WriteMessage(websocket.TextMessage, data)` call inside
`KVStore.broadcast`: which connection was written to, the bytes written,
and whether the write returned an error (the source ignores the error:
`// remove conn if error, but for simplicity`). -/
structure Attempt where
  conn : Nat
  payload : String
  failed : Bool
deriving DecidableEq

/-- The `for _, conn := range k.conns` loop of `KVStore.broadcast`: every
connection is written to in order; an erroring write is recorded and
otherwise ignored (no removal, no early exit, no propagated error). -/
def broadcastLoop (fails : Nat → Bool) (conns : List Nat) (data : String) :
    List Attempt :=
  match conns with
  | [] => []
  | c :: rest => { conn := c, payload := data, failed := fails c } :: broadcastLoop fails rest data

/-- Embedding of `KVStore.broadcast`: build the message
`map[string]string{"key": key, "value": value}`, marshal it once, then run
the write loop over the current connections.  The connection list itself
is only read, never modified. -/
def broadcast (fails : Nat → Bool) (conns : List Nat) (key value : String) :
    List Attempt :=
  broadcastLoop fails conns (jsonMarshal [("key", key), ("value", value)])

/-- The `KVStore` struct: the key/value map and the registered websocket
connections (the two mutexes guard concurrent access and are embedded
separately as an event trace, see `setTrace`). -/
structure KVStore where
  data : List (String × String)
  conns : List Nat
deriving DecidableEq

/-- Embedding of `KVStore.Set`: update the map under `mu`, then broadcast
to the connections recorded in the store; returns the new store and the
write attempts the broadcast performed. -/
def KVStore.Set (fails : Nat → Bool) (st : KVStore) (key value : String) :
    KVStore × List Attempt :=
  ({ data := KVset st.data key value, conns := st.conns },
   broadcast fails st.conns key value)

/-- Embedding of `KVStore.Get`. -/
def KVStore.Get (st : KVStore) (key : String) : Option String :=
  KVget st.data key

/-- Embedding of `KVStore.GetAll`: an independent copy of the map. -/
def KVStore.GetAll (st : KVStore) : List (String × String) :=
  GetAllCopy st.data

/-- Embedding of `KVStore.addConn`: `k.conns = append(k.conns, conn)` —
an unconditional append. -/
def KVStore.addConn (st : KVStore) (c : Nat) : KVStore :=
  { st with conns := st.conns ++ [c] }

/-- The scan in `KVStore.removeConn`: delete the first element identical
to `x` (the loop breaks after the first match), keep the rest. -/
def removeList : List Nat → Nat → List Nat
  | [], _ => []
  | c :: rest, x => if c = x then rest else c :: removeList rest x

/-- Embedding of `KVStore.removeConn`. -/
def KVStore.removeConn (st : KVStore) (c : Nat) : KVStore :=
  { st with conns := removeList st.conns c }

/-- Number of occurrences of a connection identity in the registry list. -/
def countOcc (x : Nat) : List Nat → Nat
  | [] => 0
  | c :: rest => (if c = x then 1 else 0) + countOcc x rest

/-! ## Sequences of Set calls -/

/-- Run a sequence of `Set(key, value)` calls against a store, discarding
the broadcast attempts. -/
def runSets (fails : Nat → Bool) (ops : List (String × String)) (st : KVStore) :
    KVStore :=
  ops.foldl (fun s p => (KVStore.Set fails s p.1 p.2).1) st

/-- The value of the most recent `Set` for a key within a call sequence
(the last pair in `ops` whose first component is `key`), `none` when the
key was never set.  This is the specification-side description the store
is compared against. -/
def lastSet (ops : List (String × String)) (key : String) : Option String :=
  match ops with
  | [] => none
  | p :: rest =>
      match lastSet rest key with
      | some v => some v
      | none => if p.1 = key then some p.2 else none

/-! ## HTTP handlers -/

/-- An HTTP response: status code and body. -/
structure Response where
  status : Nat
  body : String
deriving DecidableEq

/-- Embedding of `setHandler`: reject with 400 when the key or the value
query parameter is empty, otherwise call `kv.Set` and answer `200 ok`.
The boolean records whether `Set` was invoked. -/
def setHandler (fails : Nat → Bool) (st : KVStore) (key value : String) :
    Response × KVStore × Bool :=
  if key = "" ∨ value = "" then
    ({ status := 400, body := "missing key or value" }, st, false)
  else
    ({ status := 200, body := "ok" }, (KVStore.Set fails st key value).1, true)

/-- Embedding of `getHandler`: reject with 400 when the key parameter is
empty, answer 404 when `kv.Get` reports not found, otherwise write the
value.  The boolean records whether `kv.Get` was consulted. -/
def getHandler (st : KVStore) (key : String) : Response × Bool :=
  if key = "" then
    ({ status := 400, body := "missing key" }, false)
  else
    match KVStore.Get st key with
    | none => ({ status := 404, body := "404 page not found" }, true)
    | some v => ({ status := 200, body := v }, true)

/-! ## Lock discipline of the Set path as an event trace -/

/-- The lock, map-write and stream-write statements executed by
`KVStore.Set` and `KVStore.broadcast`, in program order. -/
inductive Event where
  | lockMu
  | unlockMu
  | mapWrite (key value : String)
  | lockConnMu
  | unlockConnMu
  | wsWrite (conn : Nat) (payload : String)
deriving DecidableEq

/-- Trace of `KVStore.broadcast`: `connMu.Lock()`, one `WriteMessage` per
registered connection, `connMu.Unlock()`. -/
def broadcastTrace (conns : List Nat) (key value : String) : List Event :=
  Event.lockConnMu ::
    (conns.map (fun c => Event.wsWrite c (jsonMarshal [("key", key), ("value", value)]))
      ++ [Event.unlockConnMu])

/-- Trace of `KVStore.Set`: `mu.Lock()`, the map assignment, `mu.Unlock()`,
then the broadcast trace. -/
def setTrace (conns : List Nat) (key value : String) : List Event :=
  Event.lockMu :: Event.mapWrite key value :: Event.unlockMu ::
    broadcastTrace conns key value

/-- Scan a trace tracking the hold depth of the two mutexes, asserting at
every stream write that the map lock is released and the connection lock
is held (the discipline the source actually follows). -/
def checkLocks : List Event → Nat → Nat → Bool
  | [], _, _ => true
  | e :: rest, mu, cmu =>
      match e with
      | Event.lockMu => checkLocks rest (mu + 1) cmu
      | Event.unlockMu => checkLocks rest (mu - 1) cmu
      | Event.mapWrite _ _ => checkLocks rest mu cmu
      | Event.lockConnMu => checkLocks rest mu (cmu + 1)
      | Event.unlockConnMu => checkLocks rest mu (cmu - 1)
      | Event.wsWrite _ _ => (mu = 0) && (0 < cmu) && checkLocks rest mu cmu

/-- Scan a trace asserting at every stream write that the map lock is
released and the connection lock is NOT held — the discipline the
specification sentence for C9 describes. -/
def checkLocksSpecC9 : List Event → Nat → Nat → Bool
  | [], _, _ => true
  | e :: rest, mu, cmu =>
      match e with
      | Event.lockMu => checkLocksSpecC9 rest (mu + 1) cmu
      | Event.unlockMu => checkLocksSpecC9 rest (mu - 1) cmu
      | Event.mapWrite _ _ => checkLocksSpecC9 rest mu cmu
      | Event.lockConnMu => checkLocksSpecC9 rest mu (cmu + 1)
      | Event.unlockConnMu => checkLocksSpecC9 rest mu (cmu - 1)
      | Event.wsWrite _ _ => (mu = 0) && (cmu = 0) && checkLocksSpecC9 rest mu cmu

/-! ## A heap of Go maps, for the aliasing claim about GetAll

`GetAll` returns a freshly allocated `map[string]string`.  To state that
the result is a new container and that later `Set` calls do not mutate
it, map values are placed behind references into an explicit heap. -/

/-- A heap of Go map values: contents per reference, and the next fresh
reference. -/
structure Heap where
  maps : Nat → List (String × String)
  next : Nat

/-- `GetAll` against the heap: allocate a fresh reference holding the copy
built by the `range` loop, return the new reference. -/
def heapGetAll (h : Heap) (store : Nat) : Nat × Heap :=
  (h.next,
   { maps := fun r => if r = h.next then GetAllCopy (h.maps store) else h.maps r,
     next := h.next + 1 })

/-- The map assignment of `Set` against the heap: mutate the store's map
in place. -/
def heapSet (h : Heap) (store : Nat) (key value : String) : Heap :=
  { maps := fun r => if r = store then KVset (h.maps store) key value else h.maps r,
    next := h.next }

/-! ## Map lemmas -/

theorem KVget_cons (p : String × String) (rest : List (String × String)) (key : String) :
    KVget (p :: rest) key = if p.1 = key then some p.2 else KVget rest key := by
  by_cases h : p.1 = key <;> simp [KVget, List.find?, h]

theorem KVget_KVset (m : List (String × String)) (k v k2 : String) :
    KVget (KVset m k v) k2 = if k2 = k then some v else KVget m k2 := by
  induction m with
  | nil =>
      by_cases h : k2 = k
      · subst h; simp [KVset, KVget_cons]
      · simp [KVset, KVget_cons, h, Ne.symm h, KVget]
  | cons p rest ih =>
      by_cases hp : p.1 = k
      · by_cases h : k2 = k
        · subst h; simp [KVset, hp, KVget_cons]
        · have hpk2 : ¬ p.1 = k2 := by rw [hp]; exact Ne.symm h
          simp [KVset, hp, KVget_cons, h, Ne.symm h, hpk2]
      · by_cases h2 : p.1 = k2
        · have hne : ¬ k2 = k := by rw [← h2]; intro e; exact hp e
          simp [KVset, hp, KVget_cons, h2, hne]
        · simp [KVset, hp, KVget_cons, h2, ih]

theorem lastSet_cons (p : String × String) (rest : List (String × String)) (key : String) :
    lastSet (p :: rest) key =
      match lastSet rest key with
      | some v => some v
      | none => if p.1 = key then some p.2 else none := rfl

theorem KVget_foldl_KVset (ops : List (String × String)) (m : List (String × String))
    (key : String) :
    KVget (ops.foldl (fun acc p => KVset acc p.1 p.2) m) key =
      match lastSet ops key with
      | some v => some v
      | none => KVget m key := by
  induction ops generalizing m with
  | nil => rfl
  | cons p rest ih =>
      rw [List.foldl_cons, ih, lastSet_cons]
      cases hrest : lastSet rest key with
      | some v => rfl
      | none =>
          rw [KVget_KVset]
          by_cases h : p.1 = key
          · simp [h]
          · have h2 : ¬ key = p.1 := fun e => h e.symm
            simp [h, h2]

theorem lastSet_isSome_iff (ops : List (String × String)) (key : String) :
    (lastSet ops key).isSome = true ↔ key ∈ ops.map Prod.fst := by
  induction ops with
  | nil => simp [lastSet]
  | cons p rest ih =>
      rw [lastSet_cons]
      cases hrest : lastSet rest key with
      | some v =>
          rw [hrest] at ih
          simp only [Option.isSome_some, true_iff] at ih
          simp [ih]
      | none =>
          rw [hrest] at ih
          simp only [Option.isSome_none, false_iff] at ih
          by_cases h : p.1 = key
          · simp [h]
          · have h2 : ¬ key = p.1 := fun e => h e.symm
            simp [h, h2, ih]

theorem lastSet_eq_none_of_not_mem (ops : List (String × String)) (key : String)
    (h : key ∉ ops.map Prod.fst) : lastSet ops key = none := by
  cases hl : lastSet ops key with
  | none => rfl
  | some v =>
      exact absurd ((lastSet_isSome_iff ops key).1 (by rw [hl]; rfl)) h

theorem keys_KVset_subset (m : List (String × String)) (k v x : String)
    (hx : x ∈ (KVset m k v).map Prod.fst) : x = k ∨ x ∈ m.map Prod.fst := by
  induction m with
  | nil =>
      simp only [KVset, List.map_cons, List.map_nil, List.mem_cons,
        List.not_mem_nil, or_false] at hx
      exact Or.inl hx
  | cons p rest ih =>
      by_cases hp : p.1 = k
      · simp only [KVset, if_pos hp, List.map_cons, List.mem_cons] at hx
        simp only [List.map_cons, List.mem_cons]
        tauto
      · simp only [KVset, if_neg hp, List.map_cons, List.mem_cons] at hx
        simp only [List.map_cons, List.mem_cons]
        rcases hx with h | h
        · tauto
        · rcases ih h with h2 | h2 <;> tauto

theorem nodup_keys_KVset (m : List (String × String)) (k v : String)
    (h : (m.map Prod.fst).Nodup) : ((KVset m k v).map Prod.fst).Nodup := by
  induction m with
  | nil => simp [KVset]
  | cons p rest ih =>
      simp only [List.map_cons, List.nodup_cons] at h
      by_cases hp : p.1 = k
      · simp only [KVset, if_pos hp, List.map_cons, List.nodup_cons]
        refine ⟨?_, h.2⟩
        rw [← hp]; exact h.1
      · simp only [KVset, if_neg hp, List.map_cons, List.nodup_cons]
        refine ⟨?_, ih h.2⟩
        intro hmem
        rcases keys_KVset_subset rest k v p.1 hmem with h2 | h2
        · exact hp h2
        · exact h.1 h2

theorem lastSet_eq_KVget_of_nodup (m : List (String × String)) (key : String)
    (h : (m.map Prod.fst).Nodup) : lastSet m key = KVget m key := by
  induction m with
  | nil => rfl
  | cons p rest ih =>
      simp only [List.map_cons, List.nodup_cons] at h
      rw [lastSet_cons, KVget_cons]
      by_cases hp : p.1 = key
      · have hkey : key ∉ rest.map Prod.fst := by rw [← hp]; exact h.1
        rw [lastSet_eq_none_of_not_mem rest key hkey]
        simp [hp]
      · rw [ih h.2]
        simp only [if_neg hp]
        cases KVget rest key with
        | none => rfl
        | some v => rfl

theorem KVget_GetAllCopy (m : List (String × String)) (key : String)
    (h : (m.map Prod.fst).Nodup) : KVget (GetAllCopy m) key = KVget m key := by
  rw [GetAllCopy, KVget_foldl_KVset, ← lastSet_eq_KVget_of_nodup m key h]
  cases lastSet m key with
  | none => rfl
  | some v => rfl

theorem runSets_data (fails : Nat → Bool) (ops : List (String × String)) (st : KVStore) :
    (runSets fails ops st).data = ops.foldl (fun acc p => KVset acc p.1 p.2) st.data := by
  induction ops generalizing st with
  | nil => rfl
  | cons p rest ih => rw [runSets, List.foldl_cons, List.foldl_cons, ← runSets, ih]; rfl

theorem runSets_conns (fails : Nat → Bool) (ops : List (String × String)) (st : KVStore) :
    (runSets fails ops st).conns = st.conns := by
  induction ops generalizing st with
  | nil => rfl
  | cons p rest ih => rw [runSets, List.foldl_cons, ← runSets, ih]; rfl

theorem nodup_keys_foldl (ops : List (String × String)) (m : List (String × String))
    (h : (m.map Prod.fst).Nodup) :
    ((ops.foldl (fun acc p => KVset acc p.1 p.2) m).map Prod.fst).Nodup := by
  induction ops generalizing m with
  | nil => exact h
  | cons p rest ih => rw [List.foldl_cons]; exact ih _ (nodup_keys_KVset m p.1 p.2 h)

/-! ## Registry, broadcast and lock-trace lemmas -/

theorem countOcc_eq_zero_iff (x : Nat) (l : List Nat) :
    countOcc x l = 0 ↔ x ∉ l := by
  induction l with
  | nil => simp [countOcc]
  | cons c rest ih =>
      by_cases h : c = x
      · subst h; simp [countOcc, ih]
      · simp [countOcc, h, ih]
        exact fun _ e => h e.symm

theorem removeList_of_not_mem (l : List Nat) (x : Nat) (h : x ∉ l) :
    removeList l x = l := by
  induction l with
  | nil => rfl
  | cons c rest ih =>
      have hc : ¬ c = x := fun e => h (by rw [e]; exact List.mem_cons_self _ _)
      rw [removeList, if_neg hc, ih (fun hm => h (List.mem_cons_of_mem c hm))]

theorem countOcc_removeList_ne (l : List Nat) (x c : Nat) (h : c ≠ x) :
    countOcc c (removeList l x) = countOcc c l := by
  induction l with
  | nil => rfl
  | cons a rest ih =>
      by_cases ha : a = x
      · rw [removeList, if_pos ha, countOcc]
        have : ¬ a = c := by rw [ha]; exact fun e => h e.symm
        simp [this]
      · rw [removeList, if_neg ha, countOcc, countOcc, ih]

theorem not_mem_removeList_of_count_le_one (l : List Nat) (x : Nat)
    (h : countOcc x l ≤ 1) : x ∉ removeList l x := by
  induction l with
  | nil => simp [removeList]
  | cons c rest ih =>
      by_cases hc : c = x
      · rw [removeList, if_pos hc]
        rw [countOcc, if_pos hc] at h
        have : countOcc x rest = 0 := by omega
        exact (countOcc_eq_zero_iff x rest).1 this
      · rw [removeList, if_neg hc]
        rw [countOcc, if_neg hc, Nat.zero_add] at h
        intro hm
        rcases List.mem_cons.1 hm with he | hm2
        · exact hc he.symm
        · exact ih h hm2

theorem countOcc_removeList_of_mem (l : List Nat) (x : Nat) (h : x ∈ l) :
    countOcc x (removeList l x) = countOcc x l - 1 := by
  induction l with
  | nil => cases h
  | cons c rest ih =>
      by_cases hc : c = x
      · rw [removeList, if_pos hc, countOcc, if_pos hc]; omega
      · have hx : x ∈ rest := by
          rcases List.mem_cons.1 h with he | hm
          · exact absurd he.symm hc
          · exact hm
        rw [removeList, if_neg hc, countOcc, countOcc, if_neg hc, ih hx]
        have : 1 ≤ countOcc x rest := by
          rcases Nat.eq_zero_or_pos (countOcc x rest) with h0 | h1
          · exact absurd ((countOcc_eq_zero_iff x rest).1 h0) (fun hn => hn hx)
          · exact h1
        omega

theorem countOcc_append_single (l : List Nat) (c x : Nat) :
    countOcc x (l ++ [c]) = countOcc x l + (if c = x then 1 else 0) := by
  induction l with
  | nil => simp [countOcc]
  | cons a rest ih => rw [List.cons_append, countOcc, countOcc, ih]; omega

theorem broadcastLoop_eq_map (fails : Nat → Bool) (conns : List Nat) (data : String) :
    broadcastLoop fails conns data =
      conns.map (fun c => { conn := c, payload := data, failed := fails c }) := by
  induction conns with
  | nil => rfl
  | cons c rest ih => rw [broadcastLoop, List.map_cons, ih]

theorem checkLocks_writes_then_unlock (conns : List Nat) (d : String) :
    checkLocks (conns.map (fun c => Event.wsWrite c d) ++ [Event.unlockConnMu]) 0 1 = true := by
  induction conns with
  | nil => rfl
  | cons c rest ih =>
      rw [List.map_cons, List.cons_append, checkLocks]
      simp only [ih]
      decide

/-! ## The claims -/

/-- C1: for every sequence of Set(k, v) calls, a subsequent Get(k) returns the
value of the most recent Set for key k, and Get(k') for any key never passed
to Set reports not found. -/
theorem get_returns_most_recent_set (fails : Nat → Bool) (ops : List (String × String))
    (cs : List Nat) (key : String) :
    KVStore.Get (runSets fails ops { data := [], conns := cs }) key = lastSet ops key ∧
    (key ∉ ops.map Prod.fst →
      KVStore.Get (runSets fails ops { data := [], conns := cs }) key = none) := by
  have h1 : KVStore.Get (runSets fails ops { data := [], conns := cs }) key
      = lastSet ops key := by
    rw [KVStore.Get, runSets_data, KVget_foldl_KVset]
    cases lastSet ops key with
    | none => rfl
    | some v => rfl
  exact ⟨h1, fun habs => by rw [h1]; exact lastSet_eq_none_of_not_mem ops key habs⟩

theorem get_returns_most_recent_set_witness :
    KVStore.Get (runSets (fun _ => false) [("color", "red"), ("color", "blue")]
        { data := [], conns := [] }) "color" = some "blue" ∧
    KVStore.Get (runSets (fun _ => false) [("color", "red"), ("color", "blue")]
        { data := [], conns := [] }) "size" = none := by
  constructor
  · rw [(get_returns_most_recent_set (fun _ => false)
      [("color", "red"), ("color", "blue")] [] "color").1]
    decide
  · exact (get_returns_most_recent_set (fun _ => false)
      [("color", "red"), ("color", "blue")] [] "size").2 (by decide)

/-- C2: one Set with S registered subscribers sends exactly one notification
record to each subscriber (also when S = 0), every record being the same byte
sequence: the JSON record with the two string fields key and value. -/
theorem broadcast_fanout (fails : Nat → Bool) (conns : List Nat) (key value : String) :
    broadcast fails conns key value =
      conns.map (fun c =>
        { conn := c, payload := jsonMarshal [("key", key), ("value", value)],
          failed := fails c }) ∧
    (broadcast fails conns key value).length = conns.length ∧
    broadcast fails ([] : List Nat) key value = [] ∧
    jsonMarshal [("key", "color"), ("value", "blue")] =
      "\x7b\"key\":\"color\",\"value\":\"blue\"\x7d" := by
  refine ⟨broadcastLoop_eq_map fails conns _, ?_, rfl, by decide⟩
  rw [broadcast, broadcastLoop_eq_map, List.length_map]

/-- C8: Set (hence broadcast) never changes the subscriber registry, whatever
writes fail; pruning happens only through removeConn. -/
theorem broadcast_preserves_subscribers (fails : Nat → Bool) (st : KVStore)
    (key value : String) (ops : List (String × String)) :
    (KVStore.Set fails st key value).1.conns = st.conns ∧
    (runSets fails ops st).conns = st.conns :=
  ⟨rfl, runSets_conns fails ops st⟩

/-- C10: a read-one request with an empty key is answered 400 without
consulting the store — distinct from the 404 not-found answer — so a value
stored under the empty key by calling Set directly is unreachable through
getHandler. -/
theorem get_empty_key_rejected (st : KVStore) (fails : Nat → Bool) (v key : String)
    (hk : key ≠ "") (habs : KVStore.Get st key = none) :
    getHandler st "" = ({ status := 400, body := "missing key" }, false) ∧
    getHandler st key = ({ status := 404, body := "404 page not found" }, true) ∧
    KVStore.Get (KVStore.Set fails st "" v).1 "" = some v ∧
    getHandler (KVStore.Set fails st "" v).1 "" =
      ({ status := 400, body := "missing key" }, false) := by
  refine ⟨rfl, ?_, ?_, rfl⟩
  · simp only [getHandler, if_neg hk, habs]
  · show KVget (KVset st.data "" v) "" = some v
    rw [KVget_KVset]
    simp

theorem get_empty_key_rejected_witness :
    ("color" : String) ≠ "" ∧
    KVStore.Get { data := [("size", "2")], conns := [] } "color" = none ∧
    (getHandler { data := [("size", "2")], conns := [] } "" =
      ({ status := 400, body := "missing key" }, false) ∧
    getHandler { data := [("size", "2")], conns := [] } "color" =
      ({ status := 404, body := "404 page not found" }, true) ∧
    KVStore.Get (KVStore.Set (fun _ => false)
      { data := [("size", "2")], conns := [] } "" "blue").1 "" = some "blue" ∧
    getHandler (KVStore.Set (fun _ => false)
      { data := [("size", "2")], conns := [] } "" "blue").1 "" =
      ({ status := 400, body := "missing key" }, false)) := by
  refine ⟨by decide, by decide, ?_⟩
  exact get_empty_key_rejected { data := [("size", "2")], conns := [] }
    (fun _ => false) "blue" "color" (by decide) (by decide)

/-- C4: a failing write to one subscriber does not prevent the write attempt
to every other subscriber, the broadcast completes over the whole registry,
and the writer that triggered the Set still receives the 200 ok answer. -/
theorem broadcast_failure_isolated (fails : Nat → Bool) (st : KVStore)
    (conns : List Nat) (key value : String) (hk : key ≠ "") (hv : value ≠ "") :
    (broadcast fails conns key value).map Attempt.conn = conns ∧
    (setHandler fails st key value).1 = { status := 200, body := "ok" } := by
  constructor
  · rw [broadcast, broadcastLoop_eq_map, List.map_map]
    exact List.map_id conns
  · simp only [setHandler, if_neg (not_or.mpr ⟨hk, hv⟩)]

theorem broadcast_failure_isolated_witness :
    ("color" : String) ≠ "" ∧ ("blue" : String) ≠ "" ∧
    ((broadcast (fun c => c == 0) [0, 1, 2] "color" "blue").map Attempt.conn = [0, 1, 2] ∧
    (setHandler (fun c => c == 0) { data := [], conns := [0, 1, 2] } "color" "blue").1 =
      { status := 200, body := "ok" }) := by
  refine ⟨by decide, by decide, ?_⟩
  exact broadcast_failure_isolated (fun c => c == 0)
    { data := [], conns := [0, 1, 2] } [0, 1, 2] "color" "blue" (by decide) (by decide)

/-- C5: setHandler answers 400 exactly when the key or the value is empty and
then never invokes Set; Set itself validates nothing and stores any strings,
empty ones included, with no failure. -/
theorem set_validation_surface_only (fails : Nat → Bool) (st : KVStore)
    (key value : String) :
    ((setHandler fails st key value).1.status = 400 ↔ (key = "" ∨ value = "")) ∧
    (setHandler fails st "" value).2 = (st, false) ∧
    (setHandler fails st key "").2 = (st, false) ∧
    KVStore.Get (KVStore.Set fails st key value).1 key = some value := by
  refine ⟨?_, ?_, ?_, ?_⟩
  · by_cases h : key = "" ∨ value = ""
    · simp [setHandler, h]
    · simp [setHandler, h]
  · simp [setHandler]
  · simp [setHandler]
  · show KVget (KVset st.data key value) key = some value
    rw [KVget_KVset]
    simp

/-- C6 counterexample: with the duplicate-holding registry [s, s], the second
Remove(s) in succession is not a no-op — it removes the second occurrence. -/
theorem remove_twice_counterexample :
    KVStore.removeConn (KVStore.removeConn { data := [], conns := [0, 0] } 0) 0 ≠
      KVStore.removeConn { data := [], conns := [0, 0] } 0 := by decide

/-- C6 (amended): Remove(s) is a no-op with no error whenever s is not in the
registry (never added or already removed); a second Remove(s) is a no-op
provided s occurred at most once; Remove(s) never changes the occurrence
count of any other subscriber. -/
theorem remove_absent_noop (st : KVStore) (s : Nat) :
    (s ∉ st.conns → KVStore.removeConn st s = st) ∧
    (countOcc s st.conns ≤ 1 →
      KVStore.removeConn (KVStore.removeConn st s) s = KVStore.removeConn st s) ∧
    (∀ c, c ≠ s → countOcc c (KVStore.removeConn st s).conns = countOcc c st.conns) := by
  refine ⟨?_, ?_, ?_⟩
  · intro h
    show ({ st with conns := removeList st.conns s } : KVStore) = st
    rw [removeList_of_not_mem st.conns s h]
  · intro h
    have h2 : s ∉ removeList st.conns s := not_mem_removeList_of_count_le_one st.conns s h
    show ({ data := st.data, conns := removeList (removeList st.conns s) s } : KVStore) = _
    rw [removeList_of_not_mem _ s h2]
    rfl
  · exact fun c hc => countOcc_removeList_ne st.conns s c hc

theorem remove_absent_noop_witness :
    (5 ∉ ([0, 1] : List Nat)) ∧ countOcc 1 [0, 1] ≤ 1 ∧ (1 : Nat) ≠ 0 ∧
    (KVStore.removeConn { data := [], conns := [0, 1] } 5 =
      { data := [], conns := [0, 1] } ∧
    KVStore.removeConn (KVStore.removeConn { data := [], conns := [0, 1] } 1) 1 =
      KVStore.removeConn { data := [], conns := [0, 1] } 1 ∧
    countOcc 0 (KVStore.removeConn { data := [], conns := [0, 1] } 1).conns =
      countOcc 0 [0, 1]) := by
  refine ⟨by decide, by decide, by decide, ?_, ?_, ?_⟩
  · exact (remove_absent_noop { data := [], conns := [0, 1] } 5).1 (by decide)
  · exact (remove_absent_noop { data := [], conns := [0, 1] } 1).2.1 (by decide)
  · exact (remove_absent_noop { data := [], conns := [0, 1] } 1).2.2 0 (by decide)

/-- C7 counterexample: adding an already-registered subscriber does create a
second occurrence — after two addConn of the same connection the registry
holds it twice. -/
theorem add_at_most_once_counterexample :
    ¬ countOcc 0 (KVStore.addConn (KVStore.addConn { data := [], conns := [] } 0) 0).conns ≤ 1 := by
  decide

/-- C7 (amended): the registry is a sequence that may hold duplicates: addConn
appends unconditionally, so re-adding increments the occurrence count; a
single removeConn removes exactly the first occurrence by identity, so it
eliminates membership only when the subscriber occurred at most once, and
leaves every other identity's count unchanged. -/
theorem registry_list_behavior (st : KVStore) (c x : Nat) :
    (KVStore.addConn st c).conns = st.conns ++ [c] ∧
    countOcc c (KVStore.addConn st c).conns = countOcc c st.conns + 1 ∧
    (c ∈ st.conns → countOcc c (KVStore.removeConn st c).conns = countOcc c st.conns - 1) ∧
    (countOcc c st.conns ≤ 1 → c ∉ (KVStore.removeConn st c).conns) ∧
    (x ≠ c → countOcc x (KVStore.removeConn st c).conns = countOcc x st.conns) := by
  refine ⟨rfl, ?_, ?_, ?_, ?_⟩
  · show countOcc c (st.conns ++ [c]) = _
    rw [countOcc_append_single]
    simp
  · exact countOcc_removeList_of_mem st.conns c
  · exact not_mem_removeList_of_count_le_one st.conns c
  · exact fun h => countOcc_removeList_ne st.conns c x h

theorem registry_list_behavior_witness :
    (0 ∈ ([0, 0] : List Nat)) ∧ countOcc 0 [1] ≤ 1 ∧ (1 : Nat) ≠ 0 ∧
    ((KVStore.addConn { data := [], conns := [0, 0] } 0).conns = [0, 0] ++ [0] ∧
    countOcc 0 (KVStore.addConn { data := [], conns := [0, 0] } 0).conns =
      countOcc 0 [0, 0] + 1 ∧
    countOcc 0 (KVStore.removeConn { data := [], conns := [0, 0] } 0).conns =
      countOcc 0 [0, 0] - 1 ∧
    (0 : Nat) ∉ (KVStore.removeConn { data := [], conns := [1] } 0).conns ∧
    countOcc 1 (KVStore.removeConn { data := [], conns := [0, 0] } 0).conns =
      countOcc 1 [0, 0]) := by
  refine ⟨by decide, by decide, by decide, ?_, ?_, ?_, ?_, ?_⟩
  · exact (registry_list_behavior { data := [], conns := [0, 0] } 0 1).1
  · exact (registry_list_behavior { data := [], conns := [0, 0] } 0 1).2.1
  · exact (registry_list_behavior { data := [], conns := [0, 0] } 0 1).2.2.1 (by decide)
  · exact (registry_list_behavior { data := [], conns := [1] } 0 1).2.2.2.1 (by decide)
  · exact (registry_list_behavior { data := [], conns := [0, 0] } 0 1).2.2.2.2 (by decide)

/-- C3: GetAll on a store built by any sequence of Sets yields a mapping whose
keys are exactly the keys ever Set, each at its most recent value; against the
heap model, GetAll returns a reference distinct from the store's map (a new
container), whose contents agree with the store's at the instant of the call,
and a later Set mutates only the store's map, leaving the snapshot unchanged. -/
theorem getAll_snapshot (fails : Nat → Bool) (ops : List (String × String))
    (cs : List Nat) (key : String) (h : Heap) (store : Nat) (k v : String)
    (hlt : store < h.next) (hnd : ((h.maps store).map Prod.fst).Nodup) :
    KVget (KVStore.GetAll (runSets fails ops { data := [], conns := cs })) key =
      lastSet ops key ∧
    ((KVget (KVStore.GetAll (runSets fails ops { data := [], conns := cs })) key).isSome
      = true ↔ key ∈ ops.map Prod.fst) ∧
    (heapGetAll h store).1 ≠ store ∧
    KVget ((heapGetAll h store).2.maps (heapGetAll h store).1) key =
      KVget (h.maps store) key ∧
    (heapSet (heapGetAll h store).2 store k v).maps (heapGetAll h store).1 =
      (heapGetAll h store).2.maps (heapGetAll h store).1 := by
  have hnodup : ((runSets fails ops { data := [], conns := cs }).data.map Prod.fst).Nodup := by
    rw [runSets_data]
    exact nodup_keys_foldl ops [] (by simp)
  have h1 : KVget (KVStore.GetAll (runSets fails ops { data := [], conns := cs })) key
      = lastSet ops key := by
    rw [KVStore.GetAll, KVget_GetAllCopy _ _ hnodup, runSets_data, KVget_foldl_KVset]
    cases lastSet ops key with
    | none => rfl
    | some v => rfl
  have hne : (heapGetAll h store).1 ≠ store := ne_of_gt hlt
  refine ⟨h1, ?_, hne, ?_, ?_⟩
  · rw [h1]
    exact lastSet_isSome_iff ops key
  · show KVget (if h.next = h.next then GetAllCopy (h.maps store) else h.maps h.next) key = _
    rw [if_pos rfl]
    exact KVget_GetAllCopy _ _ hnd
  · have hne2 : h.next ≠ store := hne
    show (if h.next = store then _ else (heapGetAll h store).2.maps h.next) = _
    rw [if_neg hne2]
    rfl

theorem getAll_snapshot_witness :
    (0 : Nat) < 1 ∧ ((([("b", "2")] : List (String × String)).map Prod.fst).Nodup) ∧
    (KVget (KVStore.GetAll (runSets (fun _ => false) [("a", "1")]
        { data := [], conns := [] })) "a" = lastSet [("a", "1")] "a" ∧
    ((KVget (KVStore.GetAll (runSets (fun _ => false) [("a", "1")]
        { data := [], conns := [] })) "a").isSome = true ↔
      "a" ∈ ([("a", "1")] : List (String × String)).map Prod.fst) ∧
    (heapGetAll { maps := fun _ => [("b", "2")], next := 1 } 0).1 ≠ 0 ∧
    KVget ((heapGetAll { maps := fun _ => [("b", "2")], next := 1 } 0).2.maps
        (heapGetAll { maps := fun _ => [("b", "2")], next := 1 } 0).1) "a" =
      KVget [("b", "2")] "a" ∧
    (heapSet (heapGetAll { maps := fun _ => [("b", "2")], next := 1 } 0).2 0 "c" "3").maps
        (heapGetAll { maps := fun _ => [("b", "2")], next := 1 } 0).1 =
      (heapGetAll { maps := fun _ => [("b", "2")], next := 1 } 0).2.maps
        (heapGetAll { maps := fun _ => [("b", "2")], next := 1 } 0).1) := by
  refine ⟨by decide, by decide, ?_⟩
  exact getAll_snapshot (fun _ => false) [("a", "1")] [] "a"
    { maps := fun _ => [("b", "2")], next := 1 } 0 "c" "3" (by decide) (by decide)

/-- C9 counterexample: in the Set trace with one subscriber, the claimed lock
discipline — the connection-set lock not held while performing the
per-subscriber stream write — is violated: the scan asserting it fails. -/
theorem connMu_not_held_claim_counterexample :
    checkLocksSpecC9 (setTrace [0] "color" "blue") 0 0 = false := by decide

/-- C9 (amended): in the trace of every Set, the map lock is released before
the broadcast begins (it is not held at any stream write), while the
connection-set lock is held throughout the write loop, including during every
potentially-blocking per-subscriber stream write. -/
theorem set_trace_lock_discipline (conns : List Nat) (key value : String) :
    checkLocks (setTrace conns key value) 0 0 = true :=
  checkLocks_writes_then_unlock conns (jsonMarshal [("key", key), ("value", value)])

end InfoShare
